import Mathlib

/-!
# Verification of the requirements.txt sort/match engine

A shallow embedding, in Lean 4, of the core logic of the `requirements`
command-line tool:

* `src/requirements/sorting.py` — the legacy ("Option A") sort used by the
  refactored `sort` command (namespace `Sorting` below);
* `src/main.py` — the comment/section-preserving sort, the locale handling
  (`set_locale`), version-specifier normalization, and package-name matching
  (namespaces `MainPy` and `Packages` below).

Python strings are modelled as `String` (with helper functions on `List Char`
mirroring `str.strip`, `str.lower`, `str.split`, `str.replace`, `in`, and
`startswith`).  Python's stable `sorted` (Timsort) is modelled as
`List.insertionSort`, which is also stable; for the total preorders used here
the two agree.  Python's locale-fallback three-way string comparison
`(a > b) - (a < b)` is `pyStrCmp` (lexicographic by code point, exactly
CPython's `str` ordering).
-/

namespace PyStr

/-- Code point of a character (Python `ord`). -/
def cp (c : Char) : Nat := c.toNat

/-- Python `str.strip()` (no argument): drop leading and trailing whitespace. -/
def strip (l : List Char) : List Char :=
  ((l.dropWhile Char.isWhitespace).reverse.dropWhile Char.isWhitespace).reverse

/-- Python `str.lower()` (ASCII-faithful). -/
def lower (l : List Char) : List Char := l.map Char.toLower

/-- Python substring containment `pat in l`. -/
def containsSub (pat : List Char) : List Char → Bool
  | [] => pat.isEmpty
  | c :: cs => pat.isPrefixOf (c :: cs) || containsSub pat cs

/-- Python `l.split(pat)[0]` for a non-empty separator `pat`:
the prefix of `l` before the first occurrence of `pat` (all of `l` when
`pat` does not occur). -/
def takeBeforeSub (pat : List Char) : List Char → List Char
  | [] => []
  | c :: cs => if pat.isPrefixOf (c :: cs) then [] else c :: takeBeforeSub pat cs

/-- The suffix of `l` strictly after the first occurrence of `pat`
(`none` when `pat` does not occur). -/
def afterFirstSub (pat : List Char) : List Char → Option (List Char)
  | [] => none
  | c :: cs =>
    if pat.isPrefixOf (c :: cs) then some (List.drop (pat.length - 1) cs)
    else afterFirstSub pat cs

/-- Fuelled worker for `splitLast`. -/
def splitLastAux (pat : List Char) : Nat → List Char → List Char
  | 0, l => l
  | fuel + 1, l =>
    match afterFirstSub pat l with
    | none => l
    | some rest => splitLastAux pat fuel rest

/-- Python `l.split(pat)[-1]` for a non-empty separator: the suffix after the
last (left-to-right, non-overlapping) occurrence of `pat`. -/
def splitLast (pat l : List Char) : List Char := splitLastAux pat l.length l

/-- Python `l.split(c)` for a single-character separator. -/
def splitOnChar (sep : Char) : List Char → List (List Char)
  | [] => [[]]
  | c :: cs =>
    if c = sep then [] :: splitOnChar sep cs
    else
      match splitOnChar sep cs with
      | [] => [[c]]
      | piece :: rest => (c :: piece) :: rest

/-- Python `l.replace(a, b)` for single characters. -/
def replaceChar (a b : Char) (l : List Char) : List Char :=
  l.map fun c => if c = a then b else c

/-- Lexicographic three-way comparison by code point: the sign of CPython's
`str` comparison, and the fallback comparator
`lambda a, b: (a > b) - (a < b)` of `set_locale`. -/
def cmpChars : List Char → List Char → Int
  | [], [] => 0
  | [], _ :: _ => -1
  | _ :: _, [] => 1
  | a :: as, b :: bs =>
    if cp a < cp b then -1 else if cp b < cp a then 1 else cmpChars as bs

end PyStr

open PyStr

/-- Wrapper on `String` for `PyStr.strip`. -/
def pyStrip (s : String) : String := ⟨strip s.data⟩

/-- Wrapper on `String` for `PyStr.lower`. -/
def pyLower (s : String) : String := ⟨lower s.data⟩

/-- Three-way byte/code-point comparison on `String` (the locale-fallback
comparator of `set_locale`, and CPython `str` ordering). -/
def pyStrCmp (a b : String) : Int := cmpChars a.data b.data

/-- A line is blank when it strips to nothing (Python `not line.strip()`). -/
def isBlankLine (l : String) : Bool := (strip l.data).isEmpty

/-- A line is a standalone comment when its stripped text starts with `#`
(Python `line.strip().startswith("#")`). -/
def isCommentLine (l : String) : Bool := ['#'].isPrefixOf (strip l.data)

/-- Python's stable `sorted(l, key=cmp_to_key(cmp))` restricted to a key
function: stable sort of `l` by the comparator `cmp` applied to `key`. -/
def sortedByKey (cmp : String → String → Int) (key : String → String)
    (l : List String) : List String :=
  List.insertionSort (fun a b => cmp (key a) (key b) ≤ 0) l

/-- Python's stable `sorted(l, key=cmp_to_key(cmp))` on the raw lines. -/
def sortedByCmp (cmp : String → String → Int) (l : List String) : List String :=
  List.insertionSort (fun a b => cmp a b ≤ 0) l

/-- A comparator is valid when it is antisymmetric in sign and its
non-positive part is transitive — true of `strcoll` under any locale and of
the byte-order fallback; exactly what a meaningful Python comparator
satisfies. -/
def CmpValid (cmp : String → String → Int) : Prop :=
  (∀ a b, cmp a b = -cmp b a) ∧
    (∀ a b c, cmp a b ≤ 0 → cmp b c ≤ 0 → cmp a c ≤ 0)

namespace Sorting

/-!  Embedding of `src/requirements/sorting.py`. -/

/-- Function `_is_path_reference` from `sorting.py`: relative paths (`./`, `../`) and
editable installs (`-e` followed by something containing a slash). -/
def _is_path_reference (line : String) : Bool :=
  let stripped := lower (strip line.data)
  (["-e ./", "-e ../", "./", "../"].any fun p => p.data.isPrefixOf stripped) ||
    (("-e ".data.isPrefixOf stripped) && containsSub ['/'] stripped)

/-- Prefix of `l` before the first position where any of the version
operators `~= == >= <= != > <` matches: the `[0]` component of
`re.split(r"~=|==|>=|<=|!=|>|<", l)`. -/
def takeUntilOp : List Char → List Char
  | [] => []
  | c :: cs =>
    if ["~=", "==", ">=", "<=", "!=", ">", "<"].any
        (fun op => op.data.isPrefixOf (c :: cs)) then []
    else c :: takeUntilOp cs

/-- Function `_get_sort_key` from `sorting.py`: strip, cut an inline `#` comment, cut
an extras bracket, cut from the first version-specifier operator
(`re.split(r"~=|==|>=|<=|!=|>|<", …)[0]`), and strip again.  No lowercasing. -/
def _get_sort_key (line : String) : String :=
  let stripped := strip line.data
  let stripped :=
    if containsSub ['#'] stripped then strip (takeBeforeSub ['#'] stripped)
    else stripped
  let stripped := takeBeforeSub ['['] stripped
  ⟨strip (takeUntilOp stripped)⟩

/-- A line survives the comment/blank filter of `sort_packages`. -/
def isKept (line : String) : Bool := !isBlankLine line && !isCommentLine line

/-- Function `sort_packages` from `sorting.py` (legacy / "Option A" mode): drop blank
and standalone-comment lines, split path references from regular packages,
sort the regular packages by `_get_sort_key` in byte order, and append the
path references in their original order. -/
def sort_packages (lines : List String) : List String :=
  if lines.isEmpty then lines
  else
    let regular_packages := lines.filter fun l => isKept l && !_is_path_reference l
    let path_references := lines.filter fun l => isKept l && _is_path_reference l
    sortedByKey pyStrCmp _get_sort_key regular_packages ++ path_references

end Sorting

namespace MainPy

/-!  Embedding of `src/main.py`: locale handling and the comment-preserving
("section mode") sort. -/

/-- The warning printed by `set_locale` when a locale cannot be bound. -/
def localeWarning (loc : String) : String :=
  "Warning: Locale " ++ loc ++ " not available, using ASCII sorting."

/-- The comparison function yielded by the `set_locale` context manager,
together with the warnings it prints.  `avail` models which locale names the
host collation subsystem accepts, `coll loc` models `locale.strcoll` bound to
locale `loc`.  With no locale, or with an unbindable one, the fallback
`lambda a, b: (a > b) - (a < b)` (= `pyStrCmp`) is yielded; in the unbindable
case one warning is printed. -/
def setLocaleCmp (avail : String → Bool) (coll : String → String → String → Int) :
    Option String → (String → String → Int) × List String
  | none => (pyStrCmp, [])
  | some loc =>
    if avail loc then (coll loc, []) else (pyStrCmp, [localeWarning loc])

/-- State-transformer model of the `set_locale` context manager.  The state
is the process-wide `LC_COLLATE` setting.  `body` is the code run under the
`with` block, given the yielded comparison function; it may fail
(`Except.error`, modelling an exception raised while the comparison function
is in use).  Returns (body outcome, final collation state, warnings).

Faithful to the source on every path: with `None` nothing is touched; on a
successful bind the `finally` block restores the saved state (and leaves the
new one in place only if restoring itself fails); on a failed bind the state
was never changed and the `finally` restore is a no-op returning to the
saved state. -/
def set_locale_run {α : Type} (avail : String → Bool)
    (coll : String → String → String → Int) (loc : Option String)
    (body : (String → String → Int) → Except Unit α) (s : String) :
    Except Unit α × String × List String :=
  match loc with
  | none => (body pyStrCmp, s, [])
  | some l =>
    if avail l then
      (body (coll l), if avail s then s else l, [])
    else
      (body pyStrCmp, s, [localeWarning l])

/-- The nested `get_sort_key` of `_sort_section` in `main.py`: successive
`str.split(op)[0]` truncations in the order `== >= <= > < != ~=`, then
`strip()` and `lower()`.  Inline comments and extras brackets are kept. -/
def get_sort_key (line : String) : String :=
  let k := takeBeforeSub ['=', '='] line.data
  let k := takeBeforeSub ['>', '='] k
  let k := takeBeforeSub ['<', '='] k
  let k := takeBeforeSub ['>'] k
  let k := takeBeforeSub ['<'] k
  let k := takeBeforeSub ['!', '='] k
  let k := takeBeforeSub ['~', '='] k
  pyLower ⟨strip k⟩

/-- Accumulator worker for `_parse_into_sections` (the `current_section`
list of the Python loop). -/
def parseGo : List String → List String → List (List String)
  | [], cur => if cur.isEmpty then [] else [cur]
  | l :: rest, cur =>
    if isBlankLine l then
      if cur.isEmpty then parseGo rest [] else cur :: parseGo rest []
    else parseGo rest (cur ++ [l])

/-- Function `_parse_into_sections` from `main.py`: split into runs of non-blank
lines; empty runs are dropped. -/
def _parse_into_sections (lines : List String) : List (List String) :=
  parseGo lines []

/-- Function `_sort_section` from `main.py`: standalone comments first in original
order, then the package lines stable-sorted by the locale comparator applied
to `get_sort_key`. -/
def _sort_section (cmp : String → String → Int) (section_ : List String) :
    List String :=
  if section_.isEmpty then section_
  else
    let comments := section_.filter fun l => isCommentLine l
    let packages := section_.filter fun l => !isCommentLine l && !isBlankLine l
    comments ++ sortedByKey cmp get_sort_key packages

/-- The rebuild loop of `_sort_with_comment_preservation`: sections
concatenated with a single blank line between consecutive sections. -/
def rebuild : List (List String) → List String
  | [] => []
  | [s] => s
  | s :: t :: rest => s ++ [""] ++ rebuild (t :: rest)

/-- Function `_sort_with_comment_preservation` from `main.py`, with the locale
comparator abstracted: parse into sections, sort each section, rejoin with
single blank separators. -/
def _sort_with_comment_preservation (cmp : String → String → Int)
    (lines : List String) : List String :=
  if lines.isEmpty then lines
  else rebuild ((_parse_into_sections lines).map (_sort_section cmp))

/-- Function `_sort_section` as called in the source: it acquires the locale itself
(one `set_locale` per section), so it also reports that acquisition's
warnings. -/
def _sort_sectionW (avail : String → Bool)
    (coll : String → String → String → Int) (loc : Option String)
    (section_ : List String) : List String × List String :=
  let p := setLocaleCmp avail coll loc
  (_sort_section p.1 section_, p.2)

/-- Function `_sort_with_comment_preservation` with warnings: each section acquires
the locale once, so the warnings of all sections accumulate. -/
def _sort_with_comment_preservationW (avail : String → Bool)
    (coll : String → String → String → Int) (loc : Option String)
    (lines : List String) : List String × List String :=
  if lines.isEmpty then (lines, [])
  else
    let rs := (_parse_into_sections lines).map (_sort_sectionW avail coll loc)
    (rebuild (rs.map Prod.fst), (rs.map Prod.snd).flatten)

/-- Function `sort_packages` from `main.py`: substitute the cached default locale when
none is requested, then either the simple whole-line sort under one locale
acquisition (`preserve_comments=False`) or the comment-preserving sort
(`preserve_comments=True`).  Returns (sorted lines, warnings printed). -/
def sort_packages (avail : String → Bool)
    (coll : String → String → String → Int) (defaultLocale : Option String)
    (packages : List String) (locale_ : Option String)
    (preserve_comments : Bool) : List String × List String :=
  let loc := match locale_ with
    | none => defaultLocale
    | some l => some l
  if preserve_comments then
    _sort_with_comment_preservationW avail coll loc packages
  else
    let p := setLocaleCmp avail coll loc
    (sortedByCmp p.1 packages, p.2)

end MainPy

namespace Packages

/-!  Embedding of `src/requirements/packages.py` (whose
`validate_version_specifier` and `check_package_name` are line-for-line the
ones in `src/main.py`; only `_is_url_requirement` additionally treats
`" @ "` lines as URLs there — the variant embedded here). -/

/-- The operator prefixes accepted without normalization, in the order of the
source's `startswith` tuple. -/
def opPrefixes : List String := ["==", "!=", ">=", "<=", ">", "<", "~="]

/-- Does the raw version token already start with a specifier operator? -/
def hasSpecifierOp (s : String) : Bool :=
  opPrefixes.any fun op => op.data.isPrefixOf s.data

/-- The string `validate_version_specifier` actually validates: the input,
with `==` prepended when no operator prefix is present. -/
def normalizedSpecifier (s : String) : String :=
  if hasSpecifierOp s then s else "==" ++ s

/-- Function `validate_version_specifier`: prepend `==` when no operator is given,
then validate against the (external) version-specifier grammar.  The grammar
is abstracted as `grammarErr`, returning `none` on parse success and
`some msg` (its own error message) on failure; on failure the raised
`ClickException` embeds that message. -/
def validate_version_specifier (grammarErr : String → Option String)
    (version_specifier : String) : Except String String :=
  let version_specifier := normalizedSpecifier version_specifier
  match grammarErr version_specifier with
  | none => Except.ok version_specifier
  | some msg =>
    Except.error ("Invalid version specifier " ++ version_specifier ++ ": " ++ msg)

/-- Modelled from the spec: the external version-specifier grammar
(`packaging.specifiers.SpecifierSet`, PEP 440), which the spec treats as a
black box returning parse success/failure (§6).  A specifier set is a
comma-separated list of specifiers (blank items skipped); each specifier is
an operator from `=== ~= == != <= >= < >` followed by a version; a (final)
version is an optional `v`, an optional numeric epoch `N!`, then non-empty
dot-separated numeric segments, with a trailing `*` wildcard segment
allowed.  Pre/post/dev/local suffixes of PEP 440 are not needed by any input
decided here. -/
def releaseOk (v : List Char) : Bool :=
  let segs := splitOnChar '.' v
  !segs.isEmpty &&
    (segs.all (fun s => !s.isEmpty && s.all Char.isDigit) ||
      (segs.dropLast.all (fun s => !s.isEmpty && s.all Char.isDigit) &&
        segs.getLast? = some ['*'] && !segs.dropLast.isEmpty))

/-- Modelled from the spec: a PEP 440 version of the external grammar. -/
def versionOk (v : List Char) : Bool :=
  let v := strip v
  let v := if ['v'].isPrefixOf (lower v) then v.drop 1 else v
  match afterFirstSub ['!'] v with
  | none => releaseOk v
  | some rest =>
    let epoch := takeBeforeSub ['!'] v
    !epoch.isEmpty && epoch.all Char.isDigit && releaseOk rest

/-- Modelled from the spec: one specifier of the external grammar. -/
def specifierOk (s : List Char) : Bool :=
  let s := strip s
  ["===", "~=", "==", "!=", "<=", ">=", "<", ">"].any fun op =>
    op.data.isPrefixOf s && versionOk (s.drop op.data.length)

/-- Modelled from the spec: parse outcome of the external grammar on a whole
specifier-set string (`none` = success, `some msg` = `InvalidSpecifier`
with message `msg`). -/
def pep440Err (s : String) : Option String :=
  if (splitOnChar ',' s.data).all
      (fun part => (strip part).isEmpty || specifierOk part) then none
  else some ("Invalid specifier: " ++ s)

/-- Function `_is_url_requirement` from `packages.py`: VCS/direct-URL prefixes, plus
PEP 440 `name @ url` lines. -/
def _is_url_requirement (line : String) : Bool :=
  let line_stripped := lower (strip line.data)
  (["git+", "git://", "hg+", "svn+", "bzr+", "http://", "https://",
      "file://"].any fun p => p.data.isPrefixOf line_stripped) ||
    containsSub [' ', '@', ' '] line_stripped

/-- The name taken from an `#egg=` fragment: everything after the last
`#egg=` up to the next `&` or `#`, stripped (the source applies this to the
lower-cased line). -/
def eggNameOf (lowered : List Char) : List Char :=
  strip (takeBeforeSub ['#'] (takeBeforeSub ['&']
    (splitLast ['#', 'e', 'g', 'g', '='] lowered)))

/-- Function `_extract_package_from_url` from `packages.py`.  The last-resort
`re.search` over `github.com`/`gitlab.com` repository names is abstracted as
`gh` (no claim exercises that branch); the `#egg=` and `name @ url` branches
are exact. -/
def _extract_package_from_url (gh : List Char → Option (List Char))
    (line : String) : Option (List Char) :=
  let line_stripped := strip line.data
  if containsSub ['#', 'e', 'g', 'g', '='] (lower line_stripped) then
    some (eggNameOf (lower line_stripped))
  else if containsSub [' ', '@', ' '] line_stripped then
    some (lower (strip (takeBeforeSub [' ', '@', ' '] line_stripped)))
  else if containsSub "github.com".data line_stripped ||
      containsSub "gitlab.com".data line_stripped then
    gh line_stripped
  else none

/-- Function `check_package_name` from `packages.py`: case-insensitive equality fast
path, comment guard, URL branch (egg/`@`/github name, compared with `-`/`_`
collapsed), local-path suffix substring match, and the plain branch with
extras and version specifier stripped. -/
def check_package_name (gh : List Char → Option (List Char))
    (package_name line : String) : Bool :=
  let package_name_lower := lower package_name.data
  let line_lower := strip (lower line.data)
  if package_name_lower = line_lower then true
  else if ['#'].isPrefixOf (strip line.data) then false
  else if _is_url_requirement line then
    match _extract_package_from_url gh line with
    | some url_package =>
      if url_package.isEmpty then false
      else replaceChar '-' '_' url_package = replaceChar '-' '_' package_name_lower
    | none => false
  else
    let line_lower :=
      if package_name_lower.contains '-' then replaceChar '_' '-' line_lower
      else line_lower
    let line_lower :=
      if package_name_lower.contains '_' then replaceChar '-' '_' line_lower
      else line_lower
    if ["./", "../"].any (fun p => p.data.isPrefixOf line_lower) then
      containsSub package_name_lower (splitLast ['/'] line_lower)
    else
      let line_lower := takeBeforeSub ['['] line_lower
      let line_lower := strip (Sorting.takeUntilOp line_lower)
      package_name_lower = line_lower

end Packages

/-!  ## Comparator facts -/

theorem cmpChars_neg (a b : List Char) : cmpChars a b = -cmpChars b a := by
  induction a generalizing b with
  | nil => cases b <;> simp [cmpChars]
  | cons x xs ih =>
    cases b with
    | nil => simp [cmpChars]
    | cons y ys =>
      simp only [cmpChars]
      rcases Nat.lt_trichotomy (cp x) (cp y) with h | h | h
      · simp [h, Nat.lt_asymm h]
      · simp [h, Nat.lt_irrefl, ih]
      · simp [h, Nat.lt_asymm h]

theorem cmpChars_le_trans :
    ∀ a b c : List Char, cmpChars a b ≤ 0 → cmpChars b c ≤ 0 → cmpChars a c ≤ 0 := by
  intro a
  induction a with
  | nil => intro b c _ _; cases c <;> simp [cmpChars]
  | cons x xs ih =>
    intro b c h1 h2
    cases b with
    | nil => simp [cmpChars] at h1
    | cons y ys =>
      cases c with
      | nil => simp [cmpChars] at h2
      | cons z zs =>
        simp only [cmpChars] at h1 h2 ⊢
        have hd1 : cp x < cp y ∨ (cp x = cp y ∧ cmpChars xs ys ≤ 0) := by
          by_cases hxy : cp x < cp y
          · exact Or.inl hxy
          · by_cases hyx : cp y < cp x
            · rw [if_neg hxy, if_pos hyx] at h1; omega
            · exact Or.inr ⟨Nat.le_antisymm (Nat.not_lt.mp hyx) (Nat.not_lt.mp hxy),
                by rwa [if_neg hxy, if_neg hyx] at h1⟩
        have hd2 : cp y < cp z ∨ (cp y = cp z ∧ cmpChars ys zs ≤ 0) := by
          by_cases hyz : cp y < cp z
          · exact Or.inl hyz
          · by_cases hzy : cp z < cp y
            · rw [if_neg hyz, if_pos hzy] at h2; omega
            · exact Or.inr ⟨Nat.le_antisymm (Nat.not_lt.mp hzy) (Nat.not_lt.mp hyz),
                by rwa [if_neg hyz, if_neg hzy] at h2⟩
        rcases hd1 with hlt1 | ⟨heq1, ht1⟩
        · rcases hd2 with hlt2 | ⟨heq2, _⟩
          · rw [if_pos (Nat.lt_trans hlt1 hlt2)]; omega
          · rw [if_pos (heq2 ▸ hlt1)]; omega
        · rcases hd2 with hlt2 | ⟨heq2, ht2⟩
          · rw [if_pos (heq1 ▸ hlt2)]; omega
          · rw [if_neg (by omega), if_neg (by omega)]
            exact ih ys zs ht1 ht2

theorem pyStrCmp_valid : CmpValid pyStrCmp :=
  ⟨fun a b => cmpChars_neg a.data b.data,
    fun a b c => cmpChars_le_trans a.data b.data c.data⟩

theorem CmpValid.total {cmp : String → String → Int} (h : CmpValid cmp)
    (x y : String) : cmp x y ≤ 0 ∨ cmp y x ≤ 0 := by
  rcases le_or_lt (cmp x y) 0 with h1 | h1
  · exact Or.inl h1
  · have := h.1 x y
    omega

/-!  ## Stable sort facts -/

theorem sortedByKey_perm (cmp : String → String → Int) (key : String → String)
    (l : List String) : List.Perm (sortedByKey cmp key l) l :=
  List.perm_insertionSort _ l

theorem sortedByKey_sorted {cmp : String → String → Int} (h : CmpValid cmp)
    (key : String → String) (l : List String) :
    (sortedByKey cmp key l).Pairwise (fun a b => cmp (key a) (key b) ≤ 0) := by
  haveI : IsTotal String (fun a b => cmp (key a) (key b) ≤ 0) :=
    ⟨fun a b => h.total (key a) (key b)⟩
  haveI : IsTrans String (fun a b => cmp (key a) (key b) ≤ 0) :=
    ⟨fun a b c => h.2 (key a) (key b) (key c)⟩
  exact List.sorted_insertionSort _ l

theorem sortedByKey_idem {cmp : String → String → Int} (h : CmpValid cmp)
    (key : String → String) (l : List String) :
    sortedByKey cmp key (sortedByKey cmp key l) = sortedByKey cmp key l :=
  List.Sorted.insertionSort_eq (sortedByKey_sorted h key l)

theorem sortedByCmp_eq_key (cmp : String → String → Int) (l : List String) :
    sortedByCmp cmp l = sortedByKey cmp id l := rfl

theorem mem_sortedByKey {cmp : String → String → Int} {key : String → String}
    {l : List String} {x : String} : x ∈ sortedByKey cmp key l ↔ x ∈ l :=
  (sortedByKey_perm cmp key l).mem_iff

/-!  ## Section-mode structure lemmas -/

theorem sortSection_of_ne_empty (cmp : String → String → Int) (sec : List String)
    (h : ¬sec.isEmpty = true) :
    MainPy._sort_section cmp sec =
      sec.filter (fun l => isCommentLine l) ++
        sortedByKey cmp MainPy.get_sort_key
          (sec.filter fun l => !isCommentLine l && !isBlankLine l) := by
  unfold MainPy._sort_section
  rw [if_neg h]

theorem sortSection_perm (cmp : String → String → Int) (sec : List String)
    (h : ∀ l ∈ sec, isBlankLine l = false) :
    List.Perm (MainPy._sort_section cmp sec) sec := by
  by_cases hsec : sec.isEmpty
  · rw [List.isEmpty_iff.mp hsec]
    simp [MainPy._sort_section]
  · rw [sortSection_of_ne_empty cmp sec hsec]
    refine ((sortedByKey_perm cmp _ _).append_left _).trans ?_
    have hq : sec.filter (fun l => !isCommentLine l && !isBlankLine l) =
        sec.filter (fun l => !isCommentLine l) :=
      List.filter_congr fun a ha => by simp [h a ha]
    rw [hq]
    exact List.filter_append_perm _ sec

theorem sortSection_fixed {cmp : String → String → Int} (h : CmpValid cmp)
    (sec : List String) :
    MainPy._sort_section cmp (MainPy._sort_section cmp sec) =
      MainPy._sort_section cmp sec := by
  by_cases hsec : sec.isEmpty
  · rw [List.isEmpty_iff.mp hsec]
    simp [MainPy._sort_section]
  · have hout := sortSection_of_ne_empty cmp sec hsec
    set comments := sec.filter (fun l => isCommentLine l) with hc
    set ms := sortedByKey cmp MainPy.get_sort_key
      (sec.filter fun l => !isCommentLine l && !isBlankLine l) with hms
    by_cases hempty : (comments ++ ms).isEmpty
    · rw [hout, List.isEmpty_iff.mp hempty]
      simp [MainPy._sort_section]
    · rw [hout, sortSection_of_ne_empty cmp (comments ++ ms) hempty]
      have f1 : comments.filter (fun l => isCommentLine l) = comments :=
        List.filter_eq_self.mpr fun a ha => List.of_mem_filter ha
      have f2 : ms.filter (fun l => isCommentLine l) = [] := by
        rw [List.filter_eq_nil_iff]
        intro a ha hcomm
        have ha2 : a ∈ sec.filter fun l => !isCommentLine l && !isBlankLine l :=
          mem_sortedByKey.mp ha
        have := List.of_mem_filter ha2
        simp [hcomm] at this
      have f3 : comments.filter (fun l => !isCommentLine l && !isBlankLine l) = [] := by
        rw [List.filter_eq_nil_iff]
        intro a ha hq
        have := List.of_mem_filter ha
        simp [this] at hq
      have f4 : ms.filter (fun l => !isCommentLine l && !isBlankLine l) = ms := by
        rw [List.filter_eq_self]
        intro a ha
        exact (List.mem_filter.mp (mem_sortedByKey.mp ha)).2
      rw [List.filter_append, List.filter_append, f1, f2, f3, f4,
        List.append_nil, List.nil_append, sortedByKey_idem h]

/-!  ## Parse/rebuild lemmas -/

theorem isBlankLine_empty : isBlankLine "" = true := rfl

theorem parseGo_sections_wf :
    ∀ lines cur : List String, (∀ l ∈ cur, isBlankLine l = false) →
      ∀ sec ∈ MainPy.parseGo lines cur,
        sec ≠ [] ∧ ∀ l ∈ sec, isBlankLine l = false := by
  intro lines
  induction lines with
  | nil =>
    intro cur hcur sec hsec
    simp only [MainPy.parseGo] at hsec
    split at hsec
    · simp at hsec
    · rename_i hne
      simp only [List.mem_singleton] at hsec
      subst hsec
      exact ⟨by simpa [List.isEmpty_iff] using hne, hcur⟩
  | cons l rest ih =>
    intro cur hcur sec hsec
    simp only [MainPy.parseGo] at hsec
    split at hsec
    · split at hsec
      · exact ih [] (by simp) sec hsec
      · rename_i hne
        rcases List.mem_cons.mp hsec with h | h
        · subst h
          exact ⟨by simpa [List.isEmpty_iff] using hne, hcur⟩
        · exact ih [] (by simp) sec h
    · rename_i hblank
      refine ih (cur ++ [l]) ?_ sec hsec
      intro x hx
      rcases List.mem_append.mp hx with h | h
      · exact hcur x h
      · rw [List.mem_singleton] at h
        subst h
        simpa using hblank

theorem parseGo_append (R : List String) :
    ∀ s cur : List String, (∀ l ∈ s, isBlankLine l = false) →
      MainPy.parseGo (s ++ R) cur = MainPy.parseGo R (cur ++ s) := by
  intro s
  induction s with
  | nil => intro cur _; simp
  | cons x s ih =>
    intro cur h
    have hx : isBlankLine x = false := h x (by simp)
    simp only [List.cons_append, MainPy.parseGo, hx, Bool.false_eq_true, if_false,
      List.append_eq]
    rw [ih (cur ++ [x]) fun l hl => h l (by simp [hl])]
    simp

theorem rebuild_parse :
    ∀ T : List (List String),
      (∀ sec ∈ T, sec ≠ [] ∧ ∀ l ∈ sec, isBlankLine l = false) →
      MainPy._parse_into_sections (MainPy.rebuild T) = T := by
  intro T
  induction T with
  | nil => intro _; rfl
  | cons s T ih =>
    intro h
    cases T with
    | nil =>
      obtain ⟨hne, hnb⟩ := h s (by simp)
      have h2 := parseGo_append [] s [] hnb
      simp only [List.append_nil, List.nil_append] at h2
      unfold MainPy._parse_into_sections MainPy.rebuild
      rw [h2]
      simp only [MainPy.parseGo]
      rw [if_neg (by simpa [List.isEmpty_iff] using hne)]
    | cons t T2 =>
      obtain ⟨hne, hnb⟩ := h s (by simp)
      have hrest : MainPy._parse_into_sections (MainPy.rebuild (t :: T2)) = t :: T2 :=
        ih fun sec hs => h sec (by simp [hs])
      unfold MainPy._parse_into_sections at hrest ⊢
      rw [MainPy.rebuild, List.append_assoc,
        parseGo_append ([""] ++ MainPy.rebuild (t :: T2)) s [] hnb]
      simp only [List.nil_append, List.singleton_append, MainPy.parseGo,
        isBlankLine_empty, if_true, List.append_eq]
      rw [if_neg (by simpa [List.isEmpty_iff] using hne)]
      rw [hrest]

theorem sortPres_of_ne_empty (cmp : String → String → Int) (lines : List String)
    (h : ¬lines.isEmpty = true) :
    MainPy._sort_with_comment_preservation cmp lines =
      MainPy.rebuild
        ((MainPy._parse_into_sections lines).map (MainPy._sort_section cmp)) := by
  unfold MainPy._sort_with_comment_preservation
  rw [if_neg h]

theorem sortPres_empty (cmp : String → String → Int) (lines : List String)
    (h : lines.isEmpty = true) :
    MainPy._sort_with_comment_preservation cmp lines = lines := by
  unfold MainPy._sort_with_comment_preservation
  rw [if_pos h]

theorem sortPres_sections_wf (cmp : String → String → Int) (lines : List String) :
    ∀ sec ∈ (MainPy._parse_into_sections lines).map (MainPy._sort_section cmp),
      sec ≠ [] ∧ ∀ l ∈ sec, isBlankLine l = false := by
  intro sec' hs'
  rcases List.mem_map.mp hs' with ⟨sec, hsec, rfl⟩
  obtain ⟨hne, hnb⟩ := parseGo_sections_wf lines [] (by simp) sec hsec
  have hp := sortSection_perm cmp sec hnb
  refine ⟨?_, ?_⟩
  · intro hnil
    rw [hnil] at hp
    exact hne hp.symm.eq_nil
  · intro l hl
    exact hnb l (hp.subset hl)

theorem parse_sortPres (cmp : String → String → Int) (lines : List String) :
    MainPy._parse_into_sections (MainPy._sort_with_comment_preservation cmp lines) =
      (MainPy._parse_into_sections lines).map (MainPy._sort_section cmp) := by
  by_cases hl : lines.isEmpty
  · rw [List.isEmpty_iff.mp hl]
    rfl
  · rw [sortPres_of_ne_empty cmp lines hl]
    exact rebuild_parse _ (sortPres_sections_wf cmp lines)

theorem rebuild_ne_nil (T : List (List String)) (hT : T ≠ [])
    (h : ∀ sec ∈ T, sec ≠ []) : MainPy.rebuild T ≠ [] := by
  cases T with
  | nil => exact absurd rfl hT
  | cons s T2 =>
    cases T2 with
    | nil => exact h s (by simp)
    | cons t T3 =>
      rw [MainPy.rebuild]
      intro hcontra
      rcases List.append_eq_nil.mp (List.append_eq_nil.mp hcontra).1 with ⟨hs, _⟩
      exact h s (by simp) hs

theorem sortPres_fixed {cmp : String → String → Int} (h : CmpValid cmp)
    (lines : List String) :
    MainPy._sort_with_comment_preservation cmp
        (MainPy._sort_with_comment_preservation cmp lines) =
      MainPy._sort_with_comment_preservation cmp lines := by
  by_cases hl : lines.isEmpty
  · rw [List.isEmpty_iff.mp hl]
    rfl
  · by_cases hout : (MainPy._sort_with_comment_preservation cmp lines).isEmpty
    · exact sortPres_empty cmp _ hout
    · rw [sortPres_of_ne_empty cmp _ hout, parse_sortPres, List.map_map]
      rw [sortPres_of_ne_empty cmp lines hl]
      congr 1
      refine List.map_congr_left fun sec _ => ?_
      exact sortSection_fixed h sec

/-!  ## Counting lemmas -/

theorem count_sortedByKey (cmp : String → String → Int) (key : String → String)
    (l : List String) (s : String) :
    (sortedByKey cmp key l).count s = l.count s :=
  (sortedByKey_perm cmp key l).count_eq s

theorem count_sortSection (cmp : String → String → Int) (sec : List String)
    (s : String) (hs : isBlankLine s = false) :
    (MainPy._sort_section cmp sec).count s = sec.count s := by
  by_cases hsec : sec.isEmpty
  · rw [List.isEmpty_iff.mp hsec]
    simp [MainPy._sort_section]
  · rw [sortSection_of_ne_empty cmp sec hsec, List.count_append, count_sortedByKey]
    by_cases hc : isCommentLine s
    · have h1 : (sec.filter fun l => isCommentLine l).count s = sec.count s :=
        List.count_filter (by simpa using hc)
      have h2 : (sec.filter fun l => !isCommentLine l && !isBlankLine l).count s = 0 := by
        rw [List.count_eq_zero]
        intro hmem
        have := (List.mem_filter.mp hmem).2
        simp [hc] at this
      omega
    · have hcf : isCommentLine s = false := by simpa using hc
      have h1 : (sec.filter fun l => isCommentLine l).count s = 0 := by
        rw [List.count_eq_zero]
        intro hmem
        have := (List.mem_filter.mp hmem).2
        simp [hcf] at this
      have h2 : (sec.filter fun l => !isCommentLine l && !isBlankLine l).count s =
          sec.count s :=
        List.count_filter (by simp [hcf, hs])
      omega

theorem count_rebuild (T : List (List String)) (s : String) (hs : s ≠ "") :
    (MainPy.rebuild T).count s = (T.map fun sec => sec.count s).sum := by
  induction T with
  | nil => rfl
  | cons sec T ih =>
    cases T with
    | nil => simp [MainPy.rebuild]
    | cons t T2 =>
      rw [MainPy.rebuild, List.count_append, List.count_append, ih]
      have hone : ([""] : List String).count s = 0 := by
        simp [List.count_cons, hs]
      rw [hone]
      simp

theorem count_parseGo (s : String) (hs : isBlankLine s = false) :
    ∀ lines cur : List String,
      ((MainPy.parseGo lines cur).map fun sec => sec.count s).sum =
        cur.count s + lines.count s := by
  intro lines
  induction lines with
  | nil =>
    intro cur
    simp only [MainPy.parseGo]
    split
    · rename_i hcur
      rw [List.isEmpty_iff.mp hcur]
      simp
    · simp
  | cons l rest ih =>
    intro cur
    simp only [MainPy.parseGo]
    split
    · rename_i hblank
      have hne : s ≠ l := by
        intro e
        rw [e, hblank] at hs
        cases hs
      have hcount : (l :: rest).count s = rest.count s := by
        simp [List.count_cons, hne]
      split
      · rename_i hcur
        rw [List.isEmpty_iff.mp hcur, ih []]
        simp [hcount]
      · rw [hcount]
        simp only [List.map_cons, List.sum_cons, ih []]
        simp
    · rename_i hblank
      rw [ih (cur ++ [l]), List.count_append]
      simp [List.count_cons]
      omega

theorem count_sortPres (cmp : String → String → Int) (lines : List String)
    (s : String) (hs : isBlankLine s = false) :
    (MainPy._sort_with_comment_preservation cmp lines).count s = lines.count s := by
  have hs' : s ≠ "" := by
    intro e
    rw [e, isBlankLine_empty] at hs
    cases hs
  by_cases hl : lines.isEmpty
  · rw [List.isEmpty_iff.mp hl, sortPres_empty cmp [] rfl]
  · rw [sortPres_of_ne_empty cmp lines hl, count_rebuild _ s hs', List.map_map]
    have : ((MainPy._parse_into_sections lines).map
        ((fun sec => sec.count s) ∘ MainPy._sort_section cmp)) =
        (MainPy._parse_into_sections lines).map fun sec => sec.count s :=
      List.map_congr_left fun sec _ => count_sortSection cmp sec s hs
    rw [this]
    have h0 := count_parseGo s hs lines []
    rw [List.count_nil, Nat.zero_add] at h0
    unfold MainPy._parse_into_sections
    exact h0

theorem count_legacy_entry (lines : List String) (s : String)
    (hb : isBlankLine s = false) (hc : isCommentLine s = false) :
    (Sorting.sort_packages lines).count s = lines.count s := by
  by_cases hl : lines.isEmpty
  · rw [List.isEmpty_iff.mp hl]
    rfl
  · unfold Sorting.sort_packages
    rw [if_neg hl, List.count_append, count_sortedByKey]
    have hkept : Sorting.isKept s = true := by
      simp [Sorting.isKept, hb, hc]
    by_cases hp : Sorting._is_path_reference s
    · have h1 : (lines.filter fun l => Sorting.isKept l && !Sorting._is_path_reference l).count s = 0 := by
        rw [List.count_eq_zero]
        intro hmem
        have := (List.mem_filter.mp hmem).2
        simp [hp] at this
      have h2 : (lines.filter fun l => Sorting.isKept l && Sorting._is_path_reference l).count s = lines.count s :=
        List.count_filter (by simp [hkept, hp])
      omega
    · have hpf : Sorting._is_path_reference s = false := by simpa using hp
      have h1 : (lines.filter fun l => Sorting.isKept l && !Sorting._is_path_reference l).count s = lines.count s :=
        List.count_filter (by simp [hkept, hpf])
      have h2 : (lines.filter fun l => Sorting.isKept l && Sorting._is_path_reference l).count s = 0 := by
        rw [List.count_eq_zero]
        intro hmem
        have := (List.mem_filter.mp hmem).2
        simp [hpf] at this
      omega

theorem count_legacy_comment (lines : List String) (s : String)
    (hc : isCommentLine s = true) :
    (Sorting.sort_packages lines).count s = 0 := by
  by_cases hl : lines.isEmpty
  · rw [List.isEmpty_iff.mp hl]
    simp [Sorting.sort_packages]
  · unfold Sorting.sort_packages
    rw [if_neg hl, List.count_append, count_sortedByKey]
    have hkept : Sorting.isKept s = false := by
      simp [Sorting.isKept, hc]
    have h1 : (lines.filter fun l => Sorting.isKept l && !Sorting._is_path_reference l).count s = 0 := by
      rw [List.count_eq_zero]
      intro hmem
      have := (List.mem_filter.mp hmem).2
      simp [hkept] at this
    have h2 : (lines.filter fun l => Sorting.isKept l && Sorting._is_path_reference l).count s = 0 := by
      rw [List.count_eq_zero]
      intro hmem
      have := (List.mem_filter.mp hmem).2
      simp [hkept] at this
    omega

/-!  ## Warning-accounting and blank-structure lemmas -/

theorem flatten_map_singleton {α β : Type} (l : List α) (w : β) :
    (l.map fun _ => [w]).flatten = l.map fun _ => w := by
  induction l with
  | nil => rfl
  | cons a l ih => simp [ih]

theorem setLocaleCmp_unavail (avail : String → Bool)
    (coll : String → String → String → Int) (l : String) (h : avail l = false) :
    MainPy.setLocaleCmp avail coll (some l) = (pyStrCmp, [MainPy.localeWarning l]) := by
  simp [MainPy.setLocaleCmp, h]

theorem sortPresW_unavail (avail : String → Bool)
    (coll : String → String → String → Int) (l : String) (lines : List String)
    (h : avail l = false) :
    MainPy._sort_with_comment_preservationW avail coll (some l) lines =
      (MainPy._sort_with_comment_preservation pyStrCmp lines,
        (MainPy._parse_into_sections lines).map fun _ => MainPy.localeWarning l) := by
  have hset := setLocaleCmp_unavail avail coll l h
  unfold MainPy._sort_with_comment_preservationW
  split
  · rename_i hempty
    rw [List.isEmpty_iff.mp hempty]
    rfl
  · rename_i hne
    rw [sortPres_of_ne_empty _ _ hne]
    refine Prod.ext ?_ ?_
    · show MainPy.rebuild _ = MainPy.rebuild _
      rw [List.map_map]
      congr 1
      refine List.map_congr_left fun sec _ => ?_
      simp [MainPy._sort_sectionW, hset]
    · show List.flatten _ = _
      rw [List.map_map]
      have heq : (MainPy._parse_into_sections lines).map
          (Prod.snd ∘ MainPy._sort_sectionW avail coll (some l)) =
          (MainPy._parse_into_sections lines).map fun _ => [MainPy.localeWarning l] :=
        List.map_congr_left fun sec _ => by simp [MainPy._sort_sectionW, hset]
      rw [heq, flatten_map_singleton]

theorem count_rebuild_blank (T : List (List String))
    (h : ∀ sec ∈ T, ∀ l ∈ sec, isBlankLine l = false) :
    (MainPy.rebuild T).count "" = T.length - 1 := by
  induction T with
  | nil => rfl
  | cons sec T ih =>
    have hsec : sec.count "" = 0 := by
      rw [List.count_eq_zero]
      intro hm
      have hb := h sec (by simp) "" hm
      rw [isBlankLine_empty] at hb
      cases hb
    cases T with
    | nil => simpa [MainPy.rebuild] using hsec
    | cons t T2 =>
      rw [MainPy.rebuild, List.count_append, List.count_append, hsec,
        ih fun s hs li hl => h s (by simp [hs]) li hl]
      simp [List.count_cons, List.length_cons]
      omega

theorem rebuild_getLast_ne_blank (T : List (List String))
    (h : ∀ sec ∈ T, sec ≠ [] ∧ ∀ l ∈ sec, isBlankLine l = false) :
    (MainPy.rebuild T).getLast? ≠ some "" := by
  induction T with
  | nil => simp [MainPy.rebuild]
  | cons sec T ih =>
    cases T with
    | nil =>
      rw [MainPy.rebuild]
      intro hcontra
      rcases List.getLast?_eq_some_iff.mp hcontra with ⟨ys, hys⟩
      have hmem : "" ∈ sec := by rw [hys]; simp
      have hb := (h sec (by simp)).2 "" hmem
      rw [isBlankLine_empty] at hb
      cases hb
    | cons t T2 =>
      have hRne : MainPy.rebuild (t :: T2) ≠ [] :=
        rebuild_ne_nil (t :: T2) (by simp) fun s hs => (h s (by simp [hs])).1
      have hcons : ∀ (a : String) (R : List String), R ≠ [] →
          (a :: R).getLast? = R.getLast? := by
        intro a R hR
        cases R with
        | nil => exact absurd rfl hR
        | cons b R2 => simp
      rw [MainPy.rebuild, List.append_assoc, List.singleton_append,
        List.getLast?_append_of_ne_nil _ (by simp), hcons "" _ hRne]
      exact ih fun s hs => h s (by simp [hs])

/-!  ## Legacy-mode fixed point -/

theorem legacy_sort_fixed (lines : List String) :
    Sorting.sort_packages (Sorting.sort_packages lines) =
      Sorting.sort_packages lines := by
  by_cases hl : lines.isEmpty
  · rw [List.isEmpty_iff.mp hl]
    rfl
  · have hout : Sorting.sort_packages lines =
        sortedByKey pyStrCmp Sorting._get_sort_key
            (lines.filter fun l => Sorting.isKept l && !Sorting._is_path_reference l) ++
          lines.filter (fun l => Sorting.isKept l && Sorting._is_path_reference l) := by
      unfold Sorting.sort_packages
      rw [if_neg hl]
    set regs := lines.filter fun l => Sorting.isKept l && !Sorting._is_path_reference l
    set paths := lines.filter fun l => Sorting.isKept l && Sorting._is_path_reference l
    by_cases hoe : (Sorting.sort_packages lines).isEmpty
    · rw [List.isEmpty_iff.mp hoe]
      rfl
    · rw [hout] at hoe ⊢
      unfold Sorting.sort_packages
      rw [if_neg hoe]
      have f1 : (sortedByKey pyStrCmp Sorting._get_sort_key regs).filter
          (fun l => Sorting.isKept l && !Sorting._is_path_reference l) =
          sortedByKey pyStrCmp Sorting._get_sort_key regs := by
        rw [List.filter_eq_self]
        intro a ha
        exact (List.mem_filter.mp (mem_sortedByKey.mp ha)).2
      have f2 : paths.filter
          (fun l => Sorting.isKept l && !Sorting._is_path_reference l) = [] := by
        rw [List.filter_eq_nil_iff]
        intro a ha hpred
        rcases Bool.and_eq_true_iff.mp (List.mem_filter.mp ha).2 with ⟨_, hp⟩
        rcases Bool.and_eq_true_iff.mp hpred with ⟨_, hnp⟩
        simp [hp] at hnp
      have f3 : (sortedByKey pyStrCmp Sorting._get_sort_key regs).filter
          (fun l => Sorting.isKept l && Sorting._is_path_reference l) = [] := by
        rw [List.filter_eq_nil_iff]
        intro a ha hpred
        rcases Bool.and_eq_true_iff.mp
          (List.mem_filter.mp (mem_sortedByKey.mp ha)).2 with ⟨_, hnp⟩
        rcases Bool.and_eq_true_iff.mp hpred with ⟨_, hp⟩
        simp [hp] at hnp
      have f4 : paths.filter
          (fun l => Sorting.isKept l && Sorting._is_path_reference l) = paths := by
        rw [List.filter_eq_self]
        intro a ha
        exact (List.mem_filter.mp ha).2
      rw [List.filter_append, List.filter_append, f1, f2, f3, f4,
        List.append_nil, List.nil_append]
      dsimp only
      rw [sortedByKey_idem pyStrCmp_valid]

/-!  ## The claims -/

/-- C1: sorting is idempotent (and, by construction of this functional model,
pure): re-running sort on its own output is the identity — in comment-
preserving (section) mode for every valid locale comparator, in legacy
("Option A") mode, and in the simple whole-line mode of
`sort_packages(…, preserve_comments=False)`. -/
theorem C1_sort_idempotent :
    (∀ cmp lines, CmpValid cmp →
      MainPy._sort_with_comment_preservation cmp
          (MainPy._sort_with_comment_preservation cmp lines) =
        MainPy._sort_with_comment_preservation cmp lines) ∧
    (∀ lines, Sorting.sort_packages (Sorting.sort_packages lines) =
      Sorting.sort_packages lines) ∧
    (∀ cmp lines, CmpValid cmp →
      sortedByCmp cmp (sortedByCmp cmp lines) = sortedByCmp cmp lines) := by
  refine ⟨fun cmp lines h => sortPres_fixed h lines, legacy_sort_fixed,
    fun cmp lines h => ?_⟩
  rw [sortedByCmp_eq_key, sortedByCmp_eq_key]
  exact sortedByKey_idem h id lines

/-- Witness for C1 at concrete inputs (byte-order comparator). -/
theorem C1_sort_idempotent_witness :
    MainPy._sort_with_comment_preservation pyStrCmp
        (MainPy._sort_with_comment_preservation pyStrCmp
          ["b", "a", "", "# x", "c"]) =
      MainPy._sort_with_comment_preservation pyStrCmp ["b", "a", "", "# x", "c"] ∧
    sortedByCmp pyStrCmp (sortedByCmp pyStrCmp ["b", "a"]) =
      sortedByCmp pyStrCmp ["b", "a"] :=
  ⟨C1_sort_idempotent.1 pyStrCmp ["b", "a", "", "# x", "c"] pyStrCmp_valid,
    C1_sort_idempotent.2.2 pyStrCmp ["b", "a"] pyStrCmp_valid⟩

/-- C2 counterexample: the claim says the section-mode sort key preserves
case (and strips inline comments and extras).  In the code the key is
lower-cased, so sorting `["B", "a"]` in section mode yields `["a", "B"]`,
while ordering by the claimed key (comment/extras/version stripped, case
preserved — exactly the legacy `_get_sort_key`) keeps `["B", "a"]`. -/
theorem C2_sortkey_counterexample :
    MainPy._sort_section pyStrCmp ["B", "a"] = ["a", "B"] ∧
    sortedByKey pyStrCmp Sorting._get_sort_key ["B", "a"] = ["B", "a"] ∧
    (["a", "B"] : List String) ≠ ["B", "a"] := by
  decide

/-- C2 (amended): in comment-preserving (section) mode the sort key of an
entry is the line truncated by successive splits at `== >= <= > < != ~=`,
trimmed, and lower-cased — inline comments and extras brackets are NOT
stripped and collation is case-insensitive; entries of each section are
ordered by the locale comparator on that key. -/
theorem C2_section_sortkey_amended :
    (MainPy.get_sort_key "Flask==2.0.0" = "flask" ∧
      MainPy.get_sort_key "pkg  # note" = "pkg  # note" ∧
      MainPy.get_sort_key "pkg[extra]==1.0" = "pkg[extra]") ∧
    ∀ cmp section_, CmpValid cmp →
      ∃ p, MainPy._sort_section cmp section_ =
          section_.filter (fun l => isCommentLine l) ++ p ∧
        List.Perm p (section_.filter fun l => !isCommentLine l && !isBlankLine l) ∧
        p.Pairwise fun a b =>
          cmp (MainPy.get_sort_key a) (MainPy.get_sort_key b) ≤ 0 := by
  refine ⟨by decide, fun cmp section_ h => ?_⟩
  by_cases hs : section_.isEmpty
  · rw [List.isEmpty_iff.mp hs]
    exact ⟨[], by simp [MainPy._sort_section], List.Perm.refl _, List.Pairwise.nil⟩
  · exact ⟨_, sortSection_of_ne_empty cmp section_ hs, sortedByKey_perm _ _ _,
      sortedByKey_sorted h _ _⟩

/-- Witness for the amended C2 at the byte-order comparator. -/
theorem C2_section_sortkey_amended_witness :
    ∃ p, MainPy._sort_section pyStrCmp ["B", "a"] =
        (["B", "a"] : List String).filter (fun l => isCommentLine l) ++ p ∧
      List.Perm p
        ((["B", "a"] : List String).filter fun l => !isCommentLine l && !isBlankLine l) ∧
      p.Pairwise fun a b =>
        pyStrCmp (MainPy.get_sort_key a) (MainPy.get_sort_key b) ≤ 0 :=
  C2_section_sortkey_amended.2 pyStrCmp ["B", "a"] pyStrCmp_valid

/-- C3: legacy mode drops standalone comments and blank lines, sorts the
ordinary entries by the legacy sort key in byte order, and appends the
local-path/VCS/editable references after the sorted block in their original
relative order; in particular on the spec example. -/
theorem C3_legacy_mode :
    (Sorting.sort_packages ["zebra", "apple", "./local_pkg", "-e ../dev"] =
      ["apple", "zebra", "./local_pkg", "-e ../dev"]) ∧
    ∀ lines, ∃ p,
      Sorting.sort_packages lines =
          p ++ lines.filter (fun l => Sorting.isKept l && Sorting._is_path_reference l) ∧
        List.Perm p (lines.filter fun l => Sorting.isKept l && !Sorting._is_path_reference l) ∧
        p.Pairwise (fun a b =>
          pyStrCmp (Sorting._get_sort_key a) (Sorting._get_sort_key b) ≤ 0) ∧
        ∀ l ∈ Sorting.sort_packages lines, Sorting.isKept l = true := by
  constructor
  · decide
  · intro lines
    by_cases hl : lines.isEmpty
    · rw [List.isEmpty_iff.mp hl]
      exact ⟨[], by simp [Sorting.sort_packages], List.Perm.refl _,
        List.Pairwise.nil, by simp [Sorting.sort_packages]⟩
    · have hout : Sorting.sort_packages lines =
          sortedByKey pyStrCmp Sorting._get_sort_key
              (lines.filter fun l => Sorting.isKept l && !Sorting._is_path_reference l) ++
            lines.filter (fun l => Sorting.isKept l && Sorting._is_path_reference l) := by
        unfold Sorting.sort_packages
        rw [if_neg hl]
      refine ⟨sortedByKey pyStrCmp Sorting._get_sort_key
        (lines.filter fun l => Sorting.isKept l && !Sorting._is_path_reference l),
        hout, sortedByKey_perm _ _ _, sortedByKey_sorted pyStrCmp_valid _ _, ?_⟩
      intro l hlmem
      rw [hout] at hlmem
      rcases List.mem_append.mp hlmem with hm | hm
      · exact (Bool.and_eq_true_iff.mp
          (List.mem_filter.mp (mem_sortedByKey.mp hm)).2).1
      · exact (Bool.and_eq_true_iff.mp (List.mem_filter.mp hm).2).1

/-- C4: in section mode each blank-line-delimited section is reassembled as
its standalone comments (original order) followed by its sorted entries —
re-parsing the output gives exactly the per-section sorted results — the
file is rejoined with exactly one blank line between sections (blank count =
sections − 1) and no trailing blank line; in particular on the spec
example. -/
theorem C4_section_reassembly :
    (MainPy._sort_with_comment_preservation pyStrCmp
        ["# Web", "flask==2.0.0", "django==3.2.0", "", "# Data",
          "pandas==1.3.0", "numpy==1.21.0"] =
      ["# Web", "django==3.2.0", "flask==2.0.0", "", "# Data",
        "numpy==1.21.0", "pandas==1.3.0"]) ∧
    ∀ cmp lines,
      MainPy._parse_into_sections
          (MainPy._sort_with_comment_preservation cmp lines) =
        (MainPy._parse_into_sections lines).map (MainPy._sort_section cmp) ∧
      (MainPy._sort_with_comment_preservation cmp lines).count "" =
        (MainPy._parse_into_sections lines).length - 1 ∧
      (MainPy._sort_with_comment_preservation cmp lines).getLast? ≠ some "" := by
  refine ⟨by decide, fun cmp lines => ⟨parse_sortPres cmp lines, ?_, ?_⟩⟩
  · by_cases hl : lines.isEmpty
    · rw [List.isEmpty_iff.mp hl]
      rfl
    · rw [sortPres_of_ne_empty cmp lines hl,
        count_rebuild_blank _ fun sec hs => ((sortPres_sections_wf cmp lines) sec hs).2,
        List.length_map]
  · by_cases hl : lines.isEmpty
    · rw [List.isEmpty_iff.mp hl]
      simp [MainPy._sort_with_comment_preservation]
    · rw [sortPres_of_ne_empty cmp lines hl]
      exact rebuild_getLast_ne_blank _ (sortPres_sections_wf cmp lines)

/-- C5: the `set_locale` acquisition is scoped — whenever the saved prior
collation setting is itself bindable, it is restored on every exit path:
no locale requested, successful bind with the body succeeding, successful
bind with the body raising, and a failed bind. -/
theorem C5_set_locale_scoped {α : Type} :
    ∀ (avail : String → Bool) (coll : String → String → String → Int)
      (loc : Option String) (body : (String → String → Int) → Except Unit α)
      (s : String), avail s = true →
      (MainPy.set_locale_run avail coll loc body s).2.1 = s := by
  intro avail coll loc body s hs
  cases loc with
  | none => rfl
  | some l =>
    unfold MainPy.set_locale_run
    dsimp only
    by_cases hl : avail l = true
    · rw [if_pos hl]
      simp [hs]
    · rw [if_neg hl]

/-- Witness for C5, exercising both a succeeding and a failing body under a
successful bind, and a failed bind. -/
theorem C5_set_locale_scoped_witness :
    (MainPy.set_locale_run (fun _ => true) (fun _ => pyStrCmp) (some "C")
        (fun c => Except.ok (c "a" "b")) "en_US").2.1 = "en_US" ∧
    (MainPy.set_locale_run (fun _ => true) (fun _ => pyStrCmp) (some "C")
        (fun _ => (Except.error () : Except Unit Int)) "en_US").2.1 = "en_US" ∧
    (MainPy.set_locale_run (fun l => decide (l = "en_US")) (fun _ => pyStrCmp)
        (some "xx_YY") (fun c => Except.ok (c "a" "b")) "en_US").2.1 = "en_US" :=
  ⟨C5_set_locale_scoped (fun _ => true) (fun _ => pyStrCmp) (some "C")
      (fun c => Except.ok (c "a" "b")) "en_US" rfl,
    C5_set_locale_scoped (fun _ => true) (fun _ => pyStrCmp) (some "C")
      (fun _ => (Except.error () : Except Unit Int)) "en_US" rfl,
    C5_set_locale_scoped (fun l => decide (l = "en_US")) (fun _ => pyStrCmp)
      (some "xx_YY") (fun c => Except.ok (c "a" "b")) "en_US" (by decide)⟩

/-- C6 counterexample: the claim says an unbindable locale emits the warning
once per sort.  The comment-preserving sort acquires the locale once per
section, so a two-section file emits the warning twice. -/
theorem C6_warning_count_counterexample :
    (MainPy.sort_packages (fun _ => false) (fun _ => pyStrCmp) none
        ["b", "", "a"] (some "xx_YY") true).2 =
      [MainPy.localeWarning "xx_YY", MainPy.localeWarning "xx_YY"] ∧
    ([MainPy.localeWarning "xx_YY", MainPy.localeWarning "xx_YY"] :
      List String).length ≠ 1 := by
  decide

/-- C6 (amended): for every locale that cannot be bound, sorting never
raises and uses the deterministic byte-order fallback comparator
`(a > b) - (a < b)`; the simple (`preserve_comments=False`) sort emits
exactly one warning and returns the byte-order sort of the inputs (a sorted
permutation), while the comment-preserving sort applies the fallback
per section and emits one warning per section. -/
theorem C6_locale_fallback_amended :
    ∀ (avail : String → Bool) (coll : String → String → String → Int)
      (defaultLocale : Option String) (lines : List String) (l : String),
      avail l = false →
      (MainPy.sort_packages avail coll defaultLocale lines (some l) false =
          (sortedByCmp pyStrCmp lines, [MainPy.localeWarning l]) ∧
        List.Perm (sortedByCmp pyStrCmp lines) lines ∧
        (sortedByCmp pyStrCmp lines).Pairwise fun a b => pyStrCmp a b ≤ 0) ∧
      MainPy.sort_packages avail coll defaultLocale lines (some l) true =
        (MainPy._sort_with_comment_preservation pyStrCmp lines,
          (MainPy._parse_into_sections lines).map fun _ => MainPy.localeWarning l) := by
  intro avail coll defaultLocale lines l h
  have hset := setLocaleCmp_unavail avail coll l h
  refine ⟨⟨?_, ?_, ?_⟩, ?_⟩
  · show (sortedByCmp (MainPy.setLocaleCmp avail coll (some l)).1 lines,
      (MainPy.setLocaleCmp avail coll (some l)).2) = _
    rw [hset]
  · rw [sortedByCmp_eq_key]
    exact sortedByKey_perm _ _ _
  · rw [sortedByCmp_eq_key]
    exact sortedByKey_sorted pyStrCmp_valid id lines
  · show MainPy._sort_with_comment_preservationW avail coll (some l) lines = _
    exact sortPresW_unavail avail coll l lines h

/-- Witness for the amended C6 at a concrete unbindable locale. -/
theorem C6_locale_fallback_amended_witness :
    MainPy.sort_packages (fun _ => false) (fun _ => pyStrCmp) none
        ["b", "a"] (some "xx_YY") false =
      (sortedByCmp pyStrCmp ["b", "a"], [MainPy.localeWarning "xx_YY"]) ∧
    MainPy.sort_packages (fun _ => false) (fun _ => pyStrCmp) none
        ["b", "", "a"] (some "xx_YY") true =
      (MainPy._sort_with_comment_preservation pyStrCmp ["b", "", "a"],
        (MainPy._parse_into_sections ["b", "", "a"]).map
          fun _ => MainPy.localeWarning "xx_YY") :=
  ⟨((C6_locale_fallback_amended (fun _ => false) (fun _ => pyStrCmp) none
      ["b", "a"] "xx_YY" rfl).1).1,
    (C6_locale_fallback_amended (fun _ => false) (fun _ => pyStrCmp) none
      ["b", "", "a"] "xx_YY" rfl).2⟩

/-- C7: version-specifier normalization prepends `==` exactly when the input
does not already start with one of `== != >= <= > < ~=`, returns operator-
carrying inputs unchanged, succeeds returning the normalized string exactly
when the normalized string parses under the version-specifier grammar, and
on failure raises an error embedding the grammar's own message; with the
modelled PEP 440 grammar, `4.2.0` normalizes to `==4.2.0`, `>=1.0` is
unchanged, and `not.a.version` fails. -/
theorem C7_validate_version_specifier :
    (∀ g s v, Packages.validate_version_specifier g s = Except.ok v →
      v = Packages.normalizedSpecifier s) ∧
    (∀ s, Packages.hasSpecifierOp s = true → Packages.normalizedSpecifier s = s) ∧
    (∀ s, Packages.hasSpecifierOp s = false →
      Packages.normalizedSpecifier s = "==" ++ s) ∧
    (∀ g s, (∃ v, Packages.validate_version_specifier g s = Except.ok v) ↔
      g (Packages.normalizedSpecifier s) = none) ∧
    (∀ g s m, g (Packages.normalizedSpecifier s) = some m →
      Packages.validate_version_specifier g s = Except.error
        ("Invalid version specifier " ++ Packages.normalizedSpecifier s ++ ": " ++ m)) ∧
    Packages.validate_version_specifier Packages.pep440Err "4.2.0" =
      Except.ok "==4.2.0" ∧
    Packages.validate_version_specifier Packages.pep440Err ">=1.0" =
      Except.ok ">=1.0" ∧
    Packages.validate_version_specifier Packages.pep440Err "not.a.version" =
      Except.error ("Invalid version specifier ==not.a.version: " ++
        "Invalid specifier: ==not.a.version") := by
  refine ⟨?_, ?_, ?_, ?_, ?_, rfl, rfl, rfl⟩
  · intro g s v h
    unfold Packages.validate_version_specifier at h
    dsimp only at h
    cases hg : g (Packages.normalizedSpecifier s) with
    | none =>
      rw [hg] at h
      exact (Except.ok.inj h).symm
    | some m =>
      rw [hg] at h
      cases h
  · intro s h
    unfold Packages.normalizedSpecifier
    rw [if_pos h]
  · intro s h
    unfold Packages.normalizedSpecifier
    rw [if_neg (by simp [h])]
  · intro g s
    unfold Packages.validate_version_specifier
    dsimp only
    cases hg : g (Packages.normalizedSpecifier s) with
    | none => simp
    | some m => simp
  · intro g s m h
    unfold Packages.validate_version_specifier
    dsimp only
    rw [h]

/-- Witness for C7's conditional parts at concrete inputs. -/
theorem C7_validate_version_specifier_witness :
    ("==4.2.0" : String) = Packages.normalizedSpecifier "4.2.0" ∧
    Packages.normalizedSpecifier ">=1.0" = ">=1.0" :=
  ⟨C7_validate_version_specifier.1 Packages.pep440Err "4.2.0" "==4.2.0" rfl,
    C7_validate_version_specifier.2.1 ">=1.0" (by decide)⟩

/-- C8 counterexample: the claim says a URL line with an `#egg=` fragment
matches a target iff the extracted egg name equals the target (lower-cased,
separators collapsed).  Taking the target to be the whole URL line itself,
the extracted name `mypackage` differs from the target, yet the matcher
returns true via its equality fast path. -/
theorem C8_url_egg_counterexample :
    Packages._is_url_requirement
        "git+https://github.com/user/repo.git#egg=mypackage" = true ∧
    Packages._extract_package_from_url (fun _ => none)
        "git+https://github.com/user/repo.git#egg=mypackage" =
      some "mypackage".data ∧
    replaceChar '-' '_' "mypackage".data ≠
      replaceChar '-' '_'
        (lower "git+https://github.com/user/repo.git#egg=mypackage".data) ∧
    Packages.check_package_name (fun _ => none)
        "git+https://github.com/user/repo.git#egg=mypackage"
        "git+https://github.com/user/repo.git#egg=mypackage" = true := by
  decide

/-- C8 (amended): for every URL/VCS requirement line containing an `#egg=`
fragment, the matcher extracts the name case-insensitively up to the next
`&` or `#`, and matches iff the target case-insensitively equals the whole
trimmed line (equality fast path), or the line is not a standalone comment
and the extracted name is non-empty and equals the target after lower-casing
and collapsing `-`/`_`; in particular on the two spec examples. -/
theorem C8_url_egg_match_amended :
    (Packages.check_package_name (fun _ => none) "mypackage"
        "git+https://github.com/user/repo.git#egg=mypackage" = true) ∧
    (Packages.check_package_name (fun _ => none) "mypackage"
        "git+https://github.com/user/other.git#egg=other" = false) ∧
    ∀ gh target line,
      Packages._is_url_requirement line = true →
      containsSub ['#', 'e', 'g', 'g', '='] (lower (strip line.data)) = true →
      Packages.check_package_name gh target line =
        (decide (lower target.data = strip (lower line.data)) ||
          (!(['#'].isPrefixOf (strip line.data)) &&
            (!(Packages.eggNameOf (lower (strip line.data))).isEmpty &&
              decide (replaceChar '-' '_'
                  (Packages.eggNameOf (lower (strip line.data))) =
                replaceChar '-' '_' (lower target.data))))) := by
  refine ⟨by decide, by decide, fun gh target line h1 h2 => ?_⟩
  unfold Packages.check_package_name
  dsimp only
  by_cases hfast : lower target.data = strip (lower line.data)
  · rw [if_pos hfast]
    simp [hfast]
  · rw [if_neg hfast]
    have hdec : decide (lower target.data = strip (lower line.data)) = false := by
      simp [hfast]
    rw [hdec, Bool.false_or]
    by_cases hcom : ['#'].isPrefixOf (strip line.data) = true
    · rw [if_pos hcom, hcom]
      simp
    · rw [if_neg hcom]
      have hcomb : ['#'].isPrefixOf (strip line.data) = false := by
        revert hcom
        cases ['#'].isPrefixOf (strip line.data) <;> simp
      rw [hcomb, if_pos h1]
      unfold Packages._extract_package_from_url
      dsimp only
      rw [if_pos h2]
      dsimp only
      by_cases he : (Packages.eggNameOf (lower (strip line.data))).isEmpty = true
      · rw [if_pos he, he]
        simp
      · rw [if_neg he]
        have heb : (Packages.eggNameOf (lower (strip line.data))).isEmpty = false := by
          revert he
          cases (Packages.eggNameOf (lower (strip line.data))).isEmpty <;> simp
        rw [heb]
        simp

/-- Witness for the amended C8 at the spec's positive example. -/
theorem C8_url_egg_match_amended_witness :
    Packages.check_package_name (fun _ => none) "mypackage"
        "git+https://github.com/user/repo.git#egg=mypackage" =
      (decide (lower ("mypackage" : String).data =
          strip (lower ("git+https://github.com/user/repo.git#egg=mypackage" : String).data)) ||
        (!(['#'].isPrefixOf
            (strip ("git+https://github.com/user/repo.git#egg=mypackage" : String).data)) &&
          (!(Packages.eggNameOf (lower (strip
              ("git+https://github.com/user/repo.git#egg=mypackage" : String).data))).isEmpty &&
            decide (replaceChar '-' '_'
                (Packages.eggNameOf (lower (strip
                  ("git+https://github.com/user/repo.git#egg=mypackage" : String).data))) =
              replaceChar '-' '_'
                (lower ("mypackage" : String).data))))) :=
  C8_url_egg_match_amended.2.2 (fun _ => none) "mypackage"
    "git+https://github.com/user/repo.git#egg=mypackage" (by decide) (by decide)

/-- C9 counterexample: the claim says the only lines ever removed are
standalone comments during legacy-mode sort; but legacy mode also removes
blank lines, which are not standalone comments. -/
theorem C9_drop_counterexample :
    Sorting.sort_packages ["", "apple"] = ["apple"] ∧
    isCommentLine "" = false := by
  decide

/-- C9 (amended): sorting never silently drops a requirement line — every
non-blank non-comment line keeps its exact multiplicity in both modes, and
standalone comments keep their multiplicity in section mode; the only lines
removed are blank lines (both modes) and standalone comments (legacy
mode, where their count drops to zero). -/
theorem C9_no_silent_drop_amended :
    ∀ (s : String) (lines : List String) (cmp : String → String → Int),
      isBlankLine s = false →
      (isCommentLine s = false →
        (Sorting.sort_packages lines).count s = lines.count s ∧
        (MainPy._sort_with_comment_preservation cmp lines).count s =
          lines.count s) ∧
      (isCommentLine s = true →
        (MainPy._sort_with_comment_preservation cmp lines).count s =
          lines.count s ∧
        (Sorting.sort_packages lines).count s = 0) := by
  intro s lines cmp hb
  exact ⟨fun hc => ⟨count_legacy_entry lines s hb hc, count_sortPres cmp lines s hb⟩,
    fun hc => ⟨count_sortPres cmp lines s hb, count_legacy_comment lines s hc⟩⟩

/-- Witness for the amended C9 at concrete inputs. -/
theorem C9_no_silent_drop_amended_witness :
    (Sorting.sort_packages ["zebra", "apple"]).count "apple" =
        (["zebra", "apple"] : List String).count "apple" ∧
      (MainPy._sort_with_comment_preservation pyStrCmp ["zebra", "apple"]).count "apple" =
        (["zebra", "apple"] : List String).count "apple" :=
  (C9_no_silent_drop_amended "apple" ["zebra", "apple"] pyStrCmp (by decide)).1
    (by decide)

/-- C10: the matcher's equality fast path is case-insensitive (lower-cased
target against the lower-cased trimmed line) and precedes every other rule,
so a standalone comment line that case-insensitively equals the target is
matched even though commented lines otherwise never match. -/
theorem C10_fast_path_case_insensitive :
    (Packages.check_package_name (fun _ => none) "# foo" "# foo" = true) ∧
    (∀ gh target line, lower target.data = strip (lower line.data) →
      Packages.check_package_name gh target line = true) ∧
    (∀ gh target line, ['#'].isPrefixOf (strip line.data) = true →
      lower target.data ≠ strip (lower line.data) →
      Packages.check_package_name gh target line = false) := by
  refine ⟨by decide, fun gh target line h => ?_, fun gh target line hcom hne => ?_⟩
  · unfold Packages.check_package_name
    dsimp only
    rw [if_pos h]
  · unfold Packages.check_package_name
    dsimp only
    rw [if_neg hne, if_pos hcom]

/-- Witness for C10: a case-differing fast-path match, and a commented line
that does not equal the target is rejected. -/
theorem C10_fast_path_case_insensitive_witness :
    Packages.check_package_name (fun _ => none) "Django" "DJANGO" = true ∧
    Packages.check_package_name (fun _ => none) "pkg" "# pkg==1.0" = false :=
  ⟨C10_fast_path_case_insensitive.2.1 (fun _ => none) "Django" "DJANGO" (by decide),
    C10_fast_path_case_insensitive.2.2 (fun _ => none) "pkg" "# pkg==1.0"
      (by decide) (by decide)⟩
